import Mathlib

/-!
Verification of the divide-and-conquer earthquake epicenter locator
(`earthquake_locator.cpp`).

The embedding is generic over a `LinearOrderedField α` standing for the
C++ `double`, with the square-root function abstracted as a parameter
`sq : α → α` (at `α := ℝ` one instantiates `sq := Real.sqrt`); this lets
concrete witnesses evaluate at `α := ℚ`.  The recursion of
`locateEpicenter` is embedded with an explicit fuel parameter returning
`Option`: `none` means the fuel was exhausted while the C++ recursion
would still be running, so `∀ fuel, … = none` models non-termination of
the source recursion.
-/

set_option autoImplicit false
set_option linter.unusedSectionVars false

namespace EpicenterLocator

variable {α : Type} [LinearOrderedField α]

/-- Embedding of `struct SeismicStation` (id, latitude, longitude,
detection time), constructor argument order as in the C++ constructor. -/
structure SeismicStation (α : Type) where
  id : Int
  latitude : α
  longitude : α
  detection_time : α
  deriving DecidableEq

/-- Embedding of `struct Point` (x, y). -/
structure Point (α : Type) where
  x : α
  y : α
  deriving DecidableEq

/-- Embedding of `Point::distance`: `sqrt((x-x')² + (y-y'))²`, with the
square root abstracted as `sq`. -/
def Point.distance (sq : α → α) (p other : Point α) : α :=
  sq ((p.x - other.x) * (p.x - other.x) + (p.y - other.y) * (p.y - other.y))

/-- Embedding of `struct GeoBounds`. -/
structure GeoBounds (α : Type) where
  min_lat : α
  max_lat : α
  min_lon : α
  max_lon : α
  deriving DecidableEq

/-- Embedding of `GeoBounds::center`. -/
def GeoBounds.center (b : GeoBounds α) : Point α :=
  ⟨(b.min_lat + b.max_lat) / 2, (b.min_lon + b.max_lon) / 2⟩

/-- Embedding of `GeoBounds::contains`: edge-inclusive on all four sides. -/
def GeoBounds.contains (b : GeoBounds α) (s : SeismicStation α) : Prop :=
  b.min_lat ≤ s.latitude ∧ s.latitude ≤ b.max_lat ∧
    b.min_lon ≤ s.longitude ∧ s.longitude ≤ b.max_lon

instance (b : GeoBounds α) (s : SeismicStation α) : Decidable (b.contains s) :=
  inferInstanceAs (Decidable (_ ∧ _ ∧ _ ∧ _))

/-- Embedding of `struct EpicenterResult` (location, confidence, error). -/
structure EpicenterResult (α : Type) where
  location : Point α
  confidence : α
  error : α
  deriving DecidableEq

/-- `BASE_CASE_SIZE = 8`, the base-case threshold of the locator. -/
def BASE_CASE_SIZE : Nat := 8

/-- `WAVE_VELOCITY = 6.0`, the assumed P-wave velocity. -/
def WAVE_VELOCITY : α := 6

/-- Embedding of `EarthquakeEpicenterLocator::simpleTriangulation`.  The
three C++ loops become three `foldl`s: the running minimum of the
detection times, the accumulation of `(sum_x, sum_y, total_weight)`, and
the accumulation of the squared residual error. -/
def simpleTriangulation (sq : α → α) (stations : List (SeismicStation α)) :
    EpicenterResult α :=
  match stations with
  | [] => ⟨⟨0, 0⟩, 0, 1000000000⟩
  | [s] => ⟨⟨s.latitude, s.longitude⟩, 1, 0⟩
  | a :: b :: rest =>
    let all := a :: b :: rest
    let min_time := all.foldl (fun m s => min m s.detection_time) a.detection_time
    let acc := all.foldl
      (fun (acc : α × α × α) s =>
        (acc.1 + s.latitude *
            (1 / (1 + (s.detection_time - min_time) * (s.detection_time - min_time))),
         acc.2.1 + s.longitude *
            (1 / (1 + (s.detection_time - min_time) * (s.detection_time - min_time))),
         acc.2.2 +
            1 / (1 + (s.detection_time - min_time) * (s.detection_time - min_time))))
      (0, 0, 0)
    let center : Point α := ⟨acc.1 / acc.2.2, acc.2.1 / acc.2.2⟩
    let error := all.foldl
      (fun e s =>
        e + (Point.distance sq center ⟨s.latitude, s.longitude⟩ / WAVE_VELOCITY -
              (s.detection_time - min_time)) *
            (Point.distance sq center ⟨s.latitude, s.longitude⟩ / WAVE_VELOCITY -
              (s.detection_time - min_time)))
      0
    ⟨center, 1 / (1 + error / (all.length : α)), error⟩

/-- Embedding of `EarthquakeEpicenterLocator::weightedCombination`.  The
C++ loop accumulating `(total_weight, weighted_x, weighted_y,
combined_error)` becomes one `foldl` over a quadruple. -/
def weightedCombination (results : List (EpicenterResult α)) : EpicenterResult α :=
  match results with
  | [] => ⟨⟨0, 0⟩, 0, 1000000000⟩
  | [r] => r
  | a :: b :: rest =>
    let all := a :: b :: rest
    let acc := all.foldl
      (fun (acc : α × α × α × α) r =>
        (acc.1 + r.confidence,
         acc.2.1 + r.location.x * r.confidence,
         acc.2.2.1 + r.location.y * r.confidence,
         acc.2.2.2 + r.error * r.confidence))
      (0, 0, 0, 0)
    ⟨⟨acc.2.1 / acc.1, acc.2.2.1 / acc.1⟩, acc.1 / (all.length : α),
      acc.2.2.2 / acc.1⟩

/-- The SW quadrant of a region, as built in `locateEpicenter`:
`GeoBounds(min_lat, mid_lat, min_lon, mid_lon)`. -/
def swOf (b : GeoBounds α) : GeoBounds α :=
  ⟨b.min_lat, (b.min_lat + b.max_lat) / 2, b.min_lon, (b.min_lon + b.max_lon) / 2⟩

/-- The SE quadrant: `GeoBounds(min_lat, mid_lat, mid_lon, max_lon)`. -/
def seOf (b : GeoBounds α) : GeoBounds α :=
  ⟨b.min_lat, (b.min_lat + b.max_lat) / 2, (b.min_lon + b.max_lon) / 2, b.max_lon⟩

/-- The NW quadrant: `GeoBounds(mid_lat, max_lat, min_lon, mid_lon)`. -/
def nwOf (b : GeoBounds α) : GeoBounds α :=
  ⟨(b.min_lat + b.max_lat) / 2, b.max_lat, b.min_lon, (b.min_lon + b.max_lon) / 2⟩

/-- The NE quadrant: `GeoBounds(mid_lat, max_lat, mid_lon, max_lon)`. -/
def neOf (b : GeoBounds α) : GeoBounds α :=
  ⟨(b.min_lat + b.max_lat) / 2, b.max_lat, (b.min_lon + b.max_lon) / 2, b.max_lon⟩

/-- The four quadrants in the C++ iteration order SW, SE, NW, NE. -/
def quadrantsOf (b : GeoBounds α) : List (GeoBounds α) :=
  [swOf b, seOf b, nwOf b, neOf b]

/-- Index of the first region in the list that contains the station, if
any — the inner `for (auto& quad : quadrants) … break;` loop of the
partitioning step. -/
def firstMatch : List (GeoBounds α) → SeismicStation α → Option Nat
  | [], _ => none
  | q :: qs, s =>
    if q.contains s then some 0 else (firstMatch qs s).map (· + 1)

/-- The stations assigned to quadrant `i` of region `b`: those whose
first containing quadrant (in SW, SE, NW, NE order) is quadrant `i`,
kept in input order, exactly as the C++ partitioning loop pushes them. -/
def bucketOf (b : GeoBounds α) (stations : List (SeismicStation α)) (i : Nat) :
    List (SeismicStation α) :=
  stations.filter fun s => decide (firstMatch (quadrantsOf b) s = some i)

/-- Plumbing for the fueled recursion: combine the four per-quadrant
contributions (each `none` if its recursive call ran out of fuel,
`some []` for a skipped empty quadrant, `some [r]` otherwise) into the
final `weightedCombination` of the collected results, propagating fuel
exhaustion. -/
def combineOpt (o0 o1 o2 o3 : Option (List (EpicenterResult α))) :
    Option (EpicenterResult α) :=
  match o0, o1, o2, o3 with
  | some l0, some l1, some l2, some l3 =>
    some (weightedCombination (l0 ++ l1 ++ l2 ++ l3))
  | _, _, _, _ => none

/-- Embedding of `EarthquakeEpicenterLocator::locateEpicenter` with an
explicit fuel bound on the recursion depth.  `none` means the fuel ran
out before the C++ recursion would have returned.  Empty quadrants are
skipped (they contribute no estimate), non-empty ones are solved
recursively and their results combined in SW, SE, NW, NE order. -/
def locateEpicenter (sq : α → α) :
    Nat → List (SeismicStation α) → GeoBounds α → Option (EpicenterResult α)
  | 0, stations, _ =>
    if stations.length ≤ BASE_CASE_SIZE then some (simpleTriangulation sq stations)
    else none
  | fuel + 1, stations, bounds =>
    if stations.length ≤ BASE_CASE_SIZE then some (simpleTriangulation sq stations)
    else
      let b0 := bucketOf bounds stations 0
      let b1 := bucketOf bounds stations 1
      let b2 := bucketOf bounds stations 2
      let b3 := bucketOf bounds stations 3
      let o0 : Option (List (EpicenterResult α)) :=
        if b0.isEmpty then some [] else
          Option.map (fun r => [r]) (locateEpicenter sq fuel b0 (swOf bounds))
      let o1 : Option (List (EpicenterResult α)) :=
        if b1.isEmpty then some [] else
          Option.map (fun r => [r]) (locateEpicenter sq fuel b1 (seOf bounds))
      let o2 : Option (List (EpicenterResult α)) :=
        if b2.isEmpty then some [] else
          Option.map (fun r => [r]) (locateEpicenter sq fuel b2 (nwOf bounds))
      let o3 : Option (List (EpicenterResult α)) :=
        if b3.isEmpty then some [] else
          Option.map (fun r => [r]) (locateEpicenter sq fuel b3 (neOf bounds))
      combineOpt o0 o1 o2 o3

/-! ### Specification-side formulas (§4.1–§4.3 of the design spec)

These definitions transcribe the closed-form formulas the spec states;
the theorems below prove the embedded code equal to them. -/

/-- Spec formula: `m` is the minimum detection time of the set. -/
def specIsMinTime (stations : List (SeismicStation α)) (m : α) : Prop :=
  m ∈ stations.map (fun s => s.detection_time) ∧
    ∀ t ∈ stations.map (fun s => s.detection_time), m ≤ t

/-- Spec formula: the weight `w = 1 / (1 + timeDiff²)` of a station,
with `timeDiff = detectionTime - m`. -/
def specWeight (m : α) (s : SeismicStation α) : α :=
  1 / (1 + (s.detection_time - m) * (s.detection_time - m))

/-- Spec formula: the weight-normalized average of the station
coordinates, `(Σ(lat·w)/Σw, Σ(lon·w)/Σw)`. -/
def specLocation (m : α) (stations : List (SeismicStation α)) : Point α :=
  ⟨(stations.map fun s => s.latitude * specWeight m s).sum /
      (stations.map fun s => specWeight m s).sum,
   (stations.map fun s => s.longitude * specWeight m s).sum /
      (stations.map fun s => specWeight m s).sum⟩

/-- Spec formula: the summed squared residual between theoretical travel
time `distance(c, station) / WAVE_VELOCITY` and actual time difference. -/
def specError (sq : α → α) (c : Point α) (m : α)
    (stations : List (SeismicStation α)) : α :=
  (stations.map fun s =>
    (Point.distance sq c ⟨s.latitude, s.longitude⟩ / WAVE_VELOCITY -
        (s.detection_time - m)) *
    (Point.distance sq c ⟨s.latitude, s.longitude⟩ / WAVE_VELOCITY -
        (s.detection_time - m))).sum

/-- Spec formula for the combiner (§4.3): confidence-weighted average
location, mean confidence, confidence-weighted average error. -/
def specCombine (results : List (EpicenterResult α)) : EpicenterResult α :=
  ⟨⟨(results.map fun r => r.location.x * r.confidence).sum /
        (results.map fun r => r.confidence).sum,
    (results.map fun r => r.location.y * r.confidence).sum /
        (results.map fun r => r.confidence).sum⟩,
   (results.map fun r => r.confidence).sum / (results.length : α),
   (results.map fun r => r.error * r.confidence).sum /
        (results.map fun r => r.confidence).sum⟩

/-- Spec formula: `i` is the index of the first quadrant in the list
whose (edge-inclusive) bounds contain the station. -/
def specFirstContaining (qs : List (GeoBounds α)) (s : SeismicStation α)
    (i : Nat) : Prop :=
  i < qs.length ∧ (qs.getD i ⟨0, 0, 0, 0⟩).contains s ∧
    ∀ j < i, ¬ (qs.getD j ⟨0, 0, 0, 0⟩).contains s

/-! ### Fold characterizations -/

/-- The running-minimum fold of `simpleTriangulation` computes a value
that is among the inputs (or the seed) and below all of them. -/
theorem foldl_min_spec (l : List (SeismicStation α)) (a : α) :
    (l.foldl (fun m s => min m s.detection_time) a = a ∨
      ∃ s ∈ l, l.foldl (fun m s => min m s.detection_time) a = s.detection_time) ∧
    l.foldl (fun m s => min m s.detection_time) a ≤ a ∧
    ∀ s ∈ l, l.foldl (fun m s => min m s.detection_time) a ≤ s.detection_time := by
  induction l generalizing a with
  | nil => simp
  | cons x t ih =>
    obtain ⟨hmem, hle, hall⟩ := ih (min a x.detection_time)
    refine ⟨?_, ?_, ?_⟩
    · rcases hmem with h | ⟨s, hs, h⟩
      · rcases min_cases a x.detection_time with ⟨he, _⟩ | ⟨he, _⟩
        · exact Or.inl (by simpa [List.foldl_cons, he] using h)
        · exact Or.inr ⟨x, List.mem_cons_self x t, by simpa [List.foldl_cons, he] using h⟩
      · exact Or.inr ⟨s, List.mem_cons_of_mem x hs, by simpa [List.foldl_cons] using h⟩
    · simpa [List.foldl_cons] using hle.trans (min_le_left _ _)
    · intro s hs
      rcases List.mem_cons.mp hs with rfl | hs
      · simpa [List.foldl_cons] using hle.trans (min_le_right _ _)
      · simpa [List.foldl_cons] using hall s hs

/-- The sums fold of `simpleTriangulation` accumulates exactly the three
spec sums `Σ lat·w`, `Σ lon·w`, `Σ w`. -/
theorem triSums (m : α) (l : List (SeismicStation α)) (a b c : α) :
    (l.foldl
      (fun (acc : α × α × α) s =>
        (acc.1 + s.latitude *
            (1 / (1 + (s.detection_time - m) * (s.detection_time - m))),
         acc.2.1 + s.longitude *
            (1 / (1 + (s.detection_time - m) * (s.detection_time - m))),
         acc.2.2 + 1 / (1 + (s.detection_time - m) * (s.detection_time - m))))
      (a, b, c)) =
    (a + (l.map fun s => s.latitude * specWeight m s).sum,
     b + (l.map fun s => s.longitude * specWeight m s).sum,
     c + (l.map fun s => specWeight m s).sum) := by
  induction l generalizing a b c with
  | nil => simp
  | cons x t ih =>
    simp only [List.foldl_cons]
    rw [ih]
    simp [specWeight, add_assoc]

/-- The error fold of `simpleTriangulation` accumulates exactly the spec
residual sum `specError`. -/
theorem triError (sq : α → α) (c : Point α) (m : α)
    (l : List (SeismicStation α)) (e : α) :
    (l.foldl
      (fun e s =>
        e + (Point.distance sq c ⟨s.latitude, s.longitude⟩ / WAVE_VELOCITY -
              (s.detection_time - m)) *
            (Point.distance sq c ⟨s.latitude, s.longitude⟩ / WAVE_VELOCITY -
              (s.detection_time - m)))
      e) = e + specError sq c m l := by
  induction l generalizing e with
  | nil => simp [specError]
  | cons x t ih =>
    simp only [List.foldl_cons]
    rw [ih]
    simp [specError, add_assoc]

/-- The accumulation loop of `weightedCombination` computes exactly the
four spec sums `Σ conf`, `Σ x·conf`, `Σ y·conf`, `Σ err·conf`. -/
theorem wcSums (l : List (EpicenterResult α)) (a b c d : α) :
    (l.foldl
      (fun (acc : α × α × α × α) r =>
        (acc.1 + r.confidence,
         acc.2.1 + r.location.x * r.confidence,
         acc.2.2.1 + r.location.y * r.confidence,
         acc.2.2.2 + r.error * r.confidence))
      (a, b, c, d)) =
    (a + (l.map fun r => r.confidence).sum,
     b + (l.map fun r => r.location.x * r.confidence).sum,
     c + (l.map fun r => r.location.y * r.confidence).sum,
     d + (l.map fun r => r.error * r.confidence).sum) := by
  induction l generalizing a b c d with
  | nil => simp
  | cons x t ih =>
    simp only [List.foldl_cons]
    rw [ih]
    simp [add_assoc]

/-- Closed form of `simpleTriangulation` on two or more stations, in
terms of the spec formulas, with `m` the code's running minimum. -/
theorem simpleTriangulation_eq (sq : α → α) (a b : SeismicStation α)
    (rest : List (SeismicStation α)) :
    simpleTriangulation sq (a :: b :: rest) =
      ⟨specLocation
          ((a :: b :: rest).foldl (fun m s => min m s.detection_time) a.detection_time)
          (a :: b :: rest),
       1 / (1 + specError sq
          (specLocation
            ((a :: b :: rest).foldl (fun m s => min m s.detection_time) a.detection_time)
            (a :: b :: rest))
          ((a :: b :: rest).foldl (fun m s => min m s.detection_time) a.detection_time)
          (a :: b :: rest) / ((a :: b :: rest).length : α)),
       specError sq
          (specLocation
            ((a :: b :: rest).foldl (fun m s => min m s.detection_time) a.detection_time)
            (a :: b :: rest))
          ((a :: b :: rest).foldl (fun m s => min m s.detection_time) a.detection_time)
          (a :: b :: rest)⟩ := by
  rw [simpleTriangulation]
  simp only [triSums, triError, zero_add, specLocation]

/-- Closed form of `weightedCombination` on two or more estimates: it
computes exactly the spec combiner `specCombine`. -/
theorem weightedCombination_eq (a b : EpicenterResult α)
    (rest : List (EpicenterResult α)) :
    weightedCombination (a :: b :: rest) = specCombine (a :: b :: rest) := by
  rw [weightedCombination]
  simp only [wcSums, zero_add, specCombine]

/-- The code's running minimum over a non-empty station list is the
minimum detection time in the spec's sense. -/
theorem foldl_min_isMin (a : SeismicStation α) (l : List (SeismicStation α)) :
    specIsMinTime (a :: l)
      ((a :: l).foldl (fun m s => min m s.detection_time) a.detection_time) := by
  obtain ⟨hmem, hle, hall⟩ := foldl_min_spec (a :: l) a.detection_time
  constructor
  · rcases hmem with h | ⟨s, hs, h⟩
    · rw [h]; exact List.mem_map_of_mem _ (List.mem_cons_self a l)
    · rw [h]; exact List.mem_map_of_mem _ hs
  · intro t ht
    obtain ⟨s, hs, rfl⟩ := List.mem_map.mp ht
    exact hall s hs

/-! ### Quadrant geometry -/

/-- A station inside a region lies in at least one of its quadrants. -/
theorem contains_quadrant (b : GeoBounds α) (s : SeismicStation α)
    (h : b.contains s) :
    (swOf b).contains s ∨ (seOf b).contains s ∨ (nwOf b).contains s ∨
      (neOf b).contains s := by
  obtain ⟨h1, h2, h3, h4⟩ := h
  rcases le_total s.latitude ((b.min_lat + b.max_lat) / 2) with hla | hla <;>
    rcases le_total s.longitude ((b.min_lon + b.max_lon) / 2) with hlo | hlo
  · exact Or.inl ⟨h1, hla, h3, hlo⟩
  · exact Or.inr (Or.inl ⟨h1, hla, hlo, h4⟩)
  · exact Or.inr (Or.inr (Or.inl ⟨hla, h2, h3, hlo⟩))
  · exact Or.inr (Or.inr (Or.inr ⟨hla, h2, hlo, h4⟩))

/-- A station inside a quadrant of a well-formed region lies inside the
region itself. -/
theorem quadrant_contains (b : GeoBounds α) (s : SeismicStation α)
    (h1 : b.min_lat ≤ b.max_lat) (h2 : b.min_lon ≤ b.max_lon)
    (q : GeoBounds α) (hq : q ∈ quadrantsOf b) (hc : q.contains s) :
    b.contains s := by
  simp only [quadrantsOf, List.mem_cons, List.not_mem_nil, or_false] at hq
  rcases hq with rfl | rfl | rfl | rfl <;>
    · simp only [GeoBounds.contains, swOf, seOf, nwOf, neOf] at hc
      obtain ⟨c1, c2, c3, c4⟩ := hc
      exact ⟨by linarith, by linarith, by linarith, by linarith⟩

/-- `firstMatch` computes exactly the spec's "first quadrant whose
bounds contain the station". -/
theorem firstMatch_eq_iff (qs : List (GeoBounds α)) (s : SeismicStation α)
    (i : Nat) :
    firstMatch qs s = some i ↔ specFirstContaining qs s i := by
  induction qs generalizing i with
  | nil => simp [firstMatch, specFirstContaining]
  | cons q qs ih =>
    by_cases h : q.contains s
    · simp only [firstMatch, if_pos h]
      constructor
      · intro h0
        obtain rfl : (0 : Nat) = i := by simpa using h0
        exact ⟨Nat.succ_pos _, by simpa using h,
          fun j hj => absurd hj (Nat.not_lt_zero j)⟩
      · rintro ⟨hlen, hc, hfirst⟩
        rcases i with _ | i
        · rfl
        · exact absurd h (by simpa using hfirst 0 (Nat.succ_pos _))
    · simp only [firstMatch, if_neg h]
      constructor
      · intro h0
        obtain ⟨i', hi', rfl⟩ := Option.map_eq_some'.mp h0
        obtain ⟨hlen, hc, hfirst⟩ := (ih i').mp hi'
        refine ⟨Nat.succ_lt_succ hlen, by simpa using hc, ?_⟩
        intro j hj
        rcases j with _ | j
        · simpa using h
        · simpa using hfirst j (by omega)
      · rintro ⟨hlen, hc, hfirst⟩
        rcases i with _ | i
        · exact absurd (by simpa using hc) h
        · have hspec : specFirstContaining qs s i :=
            ⟨Nat.lt_of_succ_lt_succ (by simpa using hlen), by simpa using hc,
              fun j hj => by simpa using hfirst (j + 1) (by omega)⟩
          rw [(ih i).mpr hspec]
          rfl

/-- The first containing quadrant is unique. -/
theorem specFirstContaining_unique (qs : List (GeoBounds α))
    (s : SeismicStation α) (i j : Nat)
    (hi : specFirstContaining qs s i) (hj : specFirstContaining qs s j) :
    i = j := by
  obtain ⟨hi1, hi2, hi3⟩ := hi
  obtain ⟨hj1, hj2, hj3⟩ := hj
  rcases Nat.lt_trichotomy i j with h | h | h
  · exact absurd hi2 (hj3 i h)
  · exact h
  · exact absurd hj2 (hi3 j h)

/-- If some quadrant in the list contains the station, `firstMatch`
succeeds with an index below the list length. -/
theorem firstMatch_isSome (qs : List (GeoBounds α)) (s : SeismicStation α)
    (h : ∃ q ∈ qs, q.contains s) :
    ∃ i < qs.length, firstMatch qs s = some i := by
  induction qs with
  | nil => simp at h
  | cons q qs ih =>
    by_cases hq : q.contains s
    · exact ⟨0, Nat.succ_pos _, by simp [firstMatch, if_pos hq]⟩
    · obtain ⟨q', hq', hc'⟩ := h
      rcases List.mem_cons.mp hq' with rfl | hq'
      · exact absurd hc' hq
      · obtain ⟨i, hlen, hfm⟩ := ih ⟨q', hq', hc'⟩
        exact ⟨i + 1, Nat.succ_lt_succ hlen, by simp [firstMatch, if_neg hq, hfm]⟩

/-- A station in bucket `i` of the partitioning step is an input station
whose first containing quadrant is quadrant `i`. -/
theorem bucketOf_mem (b : GeoBounds α) (stations : List (SeismicStation α))
    (i : Nat) (s : SeismicStation α) (hs : s ∈ bucketOf b stations i) :
    s ∈ stations ∧ firstMatch (quadrantsOf b) s = some i := by
  have := List.mem_filter.mp hs
  exact ⟨this.1, of_decide_eq_true this.2⟩

/-- Unfolding of one partitioning step of the bucket filter. -/
theorem bucketOf_cons (b : GeoBounds α) (s : SeismicStation α)
    (t : List (SeismicStation α)) (i : Nat) :
    bucketOf b (s :: t) i =
      if firstMatch (quadrantsOf b) s = some i then s :: bucketOf b t i
      else bucketOf b t i := by
  simp only [bucketOf, List.filter_cons, decide_eq_true_eq]

/-- A station whose first containing quadrant is `i` goes into bucket `i`. -/
theorem mem_bucketOf (b : GeoBounds α) (stations : List (SeismicStation α))
    (s : SeismicStation α) (i : Nat) (hs : s ∈ stations)
    (hfm : firstMatch (quadrantsOf b) s = some i) :
    s ∈ bucketOf b stations i :=
  List.mem_filter.mpr ⟨hs, by simp [hfm]⟩

/-- A station in bucket `i` is contained in quadrant `i`. -/
theorem bucketOf_quadrant_contains (b : GeoBounds α)
    (stations : List (SeismicStation α)) (i : Nat) (s : SeismicStation α)
    (hs : s ∈ bucketOf b stations i) :
    ((quadrantsOf b).getD i ⟨0, 0, 0, 0⟩).contains s := by
  obtain ⟨_, hfm⟩ := bucketOf_mem b stations i s hs
  exact ((firstMatch_eq_iff _ _ _).mp hfm).2.1

/-- An in-region station matches some quadrant of the region. -/
theorem exists_quadrant_of_contains (b : GeoBounds α) (s : SeismicStation α)
    (h : b.contains s) : ∃ q ∈ quadrantsOf b, q.contains s := by
  rcases contains_quadrant b s h with hc | hc | hc | hc
  · exact ⟨swOf b, by simp [quadrantsOf], hc⟩
  · exact ⟨seOf b, by simp [quadrantsOf], hc⟩
  · exact ⟨nwOf b, by simp [quadrantsOf], hc⟩
  · exact ⟨neOf b, by simp [quadrantsOf], hc⟩

/-- Station conservation across the four buckets of one partitioning
step, when every station lies within the parent region. -/
theorem bucket_lengths (b : GeoBounds α) (stations : List (SeismicStation α))
    (h : ∀ s ∈ stations, b.contains s) :
    (bucketOf b stations 0).length + (bucketOf b stations 1).length +
      (bucketOf b stations 2).length + (bucketOf b stations 3).length =
      stations.length := by
  induction stations with
  | nil => simp [bucketOf]
  | cons s t ih =>
    obtain ⟨i, hlen, hfm⟩ := firstMatch_isSome _ _
      (exists_quadrant_of_contains b s (h s (List.mem_cons_self s t)))
    have ih' := ih fun x hx => h x (List.mem_cons_of_mem s hx)
    have hi4 : i < 4 := by simpa [quadrantsOf] using hlen
    rw [bucketOf_cons, bucketOf_cons, bucketOf_cons, bucketOf_cons, hfm]
    interval_cases i <;> simp <;> omega

/-! ### Confidence positivity -/

/-- The residual error is a sum of squares, hence non-negative. -/
theorem specError_nonneg (sq : α → α) (c : Point α) (m : α)
    (l : List (SeismicStation α)) : 0 ≤ specError sq c m l := by
  apply List.sum_nonneg
  intro x hx
  obtain ⟨s, _, rfl⟩ := List.mem_map.mp hx
  exact mul_self_nonneg _

/-- The base-case estimator returns strictly positive confidence on any
non-empty station list. -/
theorem simpleTriangulation_conf_pos (sq : α → α)
    (stations : List (SeismicStation α)) (h : stations ≠ []) :
    0 < (simpleTriangulation sq stations).confidence := by
  obtain _ | ⟨a, _ | ⟨b, rest⟩⟩ := stations
  · exact absurd rfl h
  · simp [simpleTriangulation]
  · rw [simpleTriangulation_eq]
    refine one_div_pos.mpr ?_
    have he := specError_nonneg sq
      (specLocation
        ((a :: b :: rest).foldl (fun m s => min m s.detection_time) a.detection_time)
        (a :: b :: rest))
      ((a :: b :: rest).foldl (fun m s => min m s.detection_time) a.detection_time)
      (a :: b :: rest)
    have hn : (0 : α) < ((a :: b :: rest).length : α) := by
      exact_mod_cast Nat.succ_pos _
    have := div_nonneg he hn.le
    linarith

/-- The combiner returns strictly positive total weight and confidence
when all of its (at least one) inputs have positive confidence. -/
theorem wc_conf_pos (results : List (EpicenterResult α)) (hne : results ≠ [])
    (hall : ∀ r ∈ results, 0 < r.confidence) :
    0 < (results.map fun r => r.confidence).sum ∧
      0 < (weightedCombination results).confidence := by
  have hsum : 0 < (results.map fun r => r.confidence).sum := by
    apply List.sum_pos
    · intro x hx
      obtain ⟨r, hr, rfl⟩ := List.mem_map.mp hx
      exact hall r hr
    · simpa using hne
  refine ⟨hsum, ?_⟩
  obtain _ | ⟨a, _ | ⟨b, rest⟩⟩ := results
  · exact absurd rfl hne
  · simpa [weightedCombination] using hall a (by simp)
  · rw [weightedCombination_eq]
    show 0 < (List.map (fun r => r.confidence) (a :: b :: rest)).sum /
      ((a :: b :: rest).length : α)
    refine div_pos hsum ?_
    exact_mod_cast Nat.succ_pos _

/-! ### Recursion lemmas -/

/-- Fuel exhaustion in the SW contribution propagates. -/
theorem combineOpt_none (o1 o2 o3 : Option (List (EpicenterResult α))) :
    combineOpt none o1 o2 o3 = none := by
  cases o1 <;> cases o2 <;> cases o3 <;> rfl

/-- Inversion of a successful `combineOpt`. -/
theorem combineOpt_eq_some (o0 o1 o2 o3 : Option (List (EpicenterResult α)))
    (r : EpicenterResult α) (h : combineOpt o0 o1 o2 o3 = some r) :
    ∃ l0 l1 l2 l3, o0 = some l0 ∧ o1 = some l1 ∧ o2 = some l2 ∧ o3 = some l3 ∧
      r = weightedCombination (l0 ++ l1 ++ l2 ++ l3) := by
  cases o0 with
  | none => rw [combineOpt_none] at h; exact absurd h (by simp)
  | some l0 =>
    cases o1 <;> cases o2 <;> cases o3 <;> simp [combineOpt] at h
    refine ⟨l0, _, _, _, rfl, rfl, rfl, rfl, ?_⟩
    rw [← h]
    simp [List.append_assoc]

/-- Inversion of a successful per-quadrant contribution. -/
theorem subOpt_elim (b : List (SeismicStation α)) (o : Option (EpicenterResult α))
    (l : List (EpicenterResult α))
    (h : (if b.isEmpty then some [] else Option.map (fun r => [r]) o) = some l) :
    (b = [] ∧ l = []) ∨ (b ≠ [] ∧ ∃ r, o = some r ∧ l = [r]) := by
  by_cases hb : b.isEmpty
  · rw [if_pos hb] at h
    exact Or.inl ⟨List.isEmpty_iff.mp hb, by simpa using h.symm⟩
  · rw [if_neg hb] at h
    obtain ⟨r, hr, hl⟩ := Option.map_eq_some'.mp h
    exact Or.inr ⟨fun hnil => hb (by simp [hnil]), r, hr, hl.symm⟩

/-- A non-empty in-region station list puts at least one station into
some bucket. -/
theorem buckets_nonempty (b : GeoBounds α) (stations : List (SeismicStation α))
    (hne : stations ≠ []) (hcont : ∀ s ∈ stations, b.contains s) :
    ∃ i < 4, bucketOf b stations i ≠ [] := by
  obtain ⟨s, hs⟩ := List.exists_mem_of_ne_nil stations hne
  obtain ⟨i, hlen, hfm⟩ := firstMatch_isSome _ _
    (exists_quadrant_of_contains b s (hcont s hs))
  refine ⟨i, by simpa [quadrantsOf] using hlen, fun hnil => ?_⟩
  have := mem_bucketOf b stations s i hs hfm
  rw [hnil] at this
  simp at this

/-- Every estimate contributed by one quadrant's recursive call has
positive confidence, given the induction hypothesis for smaller fuel. -/
theorem sub_conf_pos (sq : α → α) (fuel : Nat)
    (ih : ∀ (stations : List (SeismicStation α)) (bounds : GeoBounds α)
      (r : EpicenterResult α), stations ≠ [] →
      (∀ s ∈ stations, bounds.contains s) →
      locateEpicenter sq fuel stations bounds = some r → 0 < r.confidence)
    (bounds : GeoBounds α) (stations : List (SeismicStation α)) (i : Nat)
    (qb : GeoBounds α) (hqb : (quadrantsOf bounds).getD i ⟨0, 0, 0, 0⟩ = qb)
    (l : List (EpicenterResult α))
    (h : (if (bucketOf bounds stations i).isEmpty then some [] else
        Option.map (fun r => [r])
          (locateEpicenter sq fuel (bucketOf bounds stations i) qb)) = some l) :
    ∀ x ∈ l, 0 < x.confidence := by
  intro x hx
  rcases subOpt_elim _ _ _ h with ⟨hb, rfl⟩ | ⟨hb, r, hr, rfl⟩
  · simp at hx
  · obtain rfl : x = r := by simpa using hx
    refine ih _ qb x hb (fun s hs => ?_) hr
    rw [← hqb]
    exact bucketOf_quadrant_contains bounds stations i s hs

/-- Positivity of the returned confidence for non-empty in-region
inputs, at every fuel level at which the recursion completes. -/
theorem locate_conf_pos_aux (sq : α → α) :
    ∀ (fuel : Nat) (stations : List (SeismicStation α)) (bounds : GeoBounds α)
      (r : EpicenterResult α),
      stations ≠ [] → (∀ s ∈ stations, bounds.contains s) →
      locateEpicenter sq fuel stations bounds = some r → 0 < r.confidence := by
  intro fuel
  induction fuel with
  | zero =>
    intro stations bounds r hne hcont heq
    rw [locateEpicenter] at heq
    by_cases hlen : stations.length ≤ BASE_CASE_SIZE
    · rw [if_pos hlen] at heq
      cases Option.some.inj heq
      exact simpleTriangulation_conf_pos sq stations hne
    · rw [if_neg hlen] at heq
      exact absurd heq (by simp)
  | succ fuel ih =>
    intro stations bounds r hne hcont heq
    rw [locateEpicenter] at heq
    by_cases hlen : stations.length ≤ BASE_CASE_SIZE
    · rw [if_pos hlen] at heq
      cases Option.some.inj heq
      exact simpleTriangulation_conf_pos sq stations hne
    · rw [if_neg hlen] at heq
      obtain ⟨l0, l1, l2, l3, h0, h1, h2, h3, rfl⟩ :=
        combineOpt_eq_some _ _ _ _ _ heq
      have hp0 := sub_conf_pos sq fuel ih bounds stations 0 (swOf bounds) rfl l0 h0
      have hp1 := sub_conf_pos sq fuel ih bounds stations 1 (seOf bounds) rfl l1 h1
      have hp2 := sub_conf_pos sq fuel ih bounds stations 2 (nwOf bounds) rfl l2 h2
      have hp3 := sub_conf_pos sq fuel ih bounds stations 3 (neOf bounds) rfl l3 h3
      have hall : ∀ x ∈ l0 ++ l1 ++ l2 ++ l3, 0 < x.confidence := by
        intro x hx
        rcases List.mem_append.mp hx with hx | hx
        · rcases List.mem_append.mp hx with hx | hx
          · rcases List.mem_append.mp hx with hx | hx
            · exact hp0 x hx
            · exact hp1 x hx
          · exact hp2 x hx
        · exact hp3 x hx
      have hne4 : l0 ++ l1 ++ l2 ++ l3 ≠ [] := by
        obtain ⟨i, hi4, hbne⟩ := buckets_nonempty bounds stations hne hcont
        interval_cases i
        · rcases subOpt_elim _ _ _ h0 with ⟨hb, rfl⟩ | ⟨hb, r0, hr0, rfl⟩
          · exact absurd hb hbne
          · simp
        · rcases subOpt_elim _ _ _ h1 with ⟨hb, rfl⟩ | ⟨hb, r1, hr1, rfl⟩
          · exact absurd hb hbne
          · simp
        · rcases subOpt_elim _ _ _ h2 with ⟨hb, rfl⟩ | ⟨hb, r2, hr2, rfl⟩
          · exact absurd hb hbne
          · simp
        · rcases subOpt_elim _ _ _ h3 with ⟨hb, rfl⟩ | ⟨hb, r3, hr3, rfl⟩
          · exact absurd hb hbne
          · simp
      exact (wc_conf_pos _ hne4 hall).2

/-- Nine coincident stations at the origin of a region anchored at the
origin defeat the recursion at every fuel level: every partitioning step
sends all nine stations to the SW quadrant, whose bounds are again
anchored at the origin, so the base case is never reached. -/
theorem locate_none_aux (sq : α → α) :
    ∀ (fuel : Nat) (mlat mlon : α), 0 ≤ mlat → 0 ≤ mlon →
      locateEpicenter sq fuel
        (List.replicate 9 (⟨0, 0, 0, 0⟩ : SeismicStation α))
        (⟨0, mlat, 0, mlon⟩ : GeoBounds α) = none := by
  intro fuel
  induction fuel with
  | zero =>
    intro mlat mlon h1 h2
    rw [locateEpicenter, if_neg (by simp [BASE_CASE_SIZE])]
  | succ fuel ih =>
    intro mlat mlon h1 h2
    have hc : (swOf (⟨0, mlat, 0, mlon⟩ : GeoBounds α)).contains ⟨0, 0, 0, 0⟩ := by
      refine ⟨le_refl _, ?_, le_refl _, ?_⟩ <;> · show (0 : α) ≤ (0 + _) / 2; linarith
    have hfm : firstMatch (quadrantsOf (⟨0, mlat, 0, mlon⟩ : GeoBounds α))
        (⟨0, 0, 0, 0⟩ : SeismicStation α) = some 0 := by
      simp [quadrantsOf, firstMatch, hc]
    have hb0 : bucketOf (⟨0, mlat, 0, mlon⟩ : GeoBounds α)
        (List.replicate 9 ⟨0, 0, 0, 0⟩) 0 = List.replicate 9 ⟨0, 0, 0, 0⟩ :=
      List.filter_eq_self.mpr fun a ha => by
        obtain rfl := List.eq_of_mem_replicate ha
        simp [hfm]
    have hrec : locateEpicenter sq fuel
        (List.replicate 9 (⟨0, 0, 0, 0⟩ : SeismicStation α))
        (swOf (⟨0, mlat, 0, mlon⟩ : GeoBounds α)) = none := by
      show locateEpicenter sq fuel _
        (⟨0, (0 + mlat) / 2, 0, (0 + mlon) / 2⟩ : GeoBounds α) = none
      exact ih _ _ (by linarith) (by linarith)
    have hEmpty : (List.replicate 9 (⟨0, 0, 0, 0⟩ : SeismicStation α)).isEmpty = false := rfl
    rw [locateEpicenter, if_neg (by simp [BASE_CASE_SIZE])]
    simp only [hb0, hEmpty, Bool.false_eq_true, if_false, hrec, Option.map_none']
    exact combineOpt_none _ _ _

/-- The confidence formula is bounded by `1` for non-negative error. -/
theorem conf_formula_le_one (e n : α) (he : 0 ≤ e) (hn : 0 < n) :
    1 / (1 + e / n) ≤ 1 := by
  have hd : 0 ≤ e / n := div_nonneg he hn.le
  rw [div_le_one (by linarith)]
  linarith

/-- The confidence formula strictly decreases in the error. -/
theorem conf_formula_antitone (e1 e2 n : α) (h1 : 0 ≤ e1) (hlt : e1 < e2)
    (hn : 0 < n) : 1 / (1 + e2 / n) < 1 / (1 + e1 / n) := by
  have hd1 : 0 ≤ e1 / n := div_nonneg h1 hn.le
  have hd : e1 / n < e2 / n := by gcongr
  exact one_div_lt_one_div_of_lt (by linarith) (by linarith)

/-! ### Claim theorems -/

/-- C1: the termination claim fails on the code: with nine stations all
at the exact point `(0,0)` in the unit region, every partitioning step
assigns all nine stations to the SW quadrant, the station count never
falls to the base-case threshold, and the recursion never returns — the
fueled embedding yields `none` at every fuel level. -/
theorem locate_diverges_on_nine_coincident_stations :
    ∀ fuel : Nat,
      locateEpicenter (α := ℚ) (fun x => x) fuel
        (List.replicate 9 ⟨0, 0, 0, 0⟩) ⟨0, 1, 0, 1⟩ = none :=
  fun fuel => locate_none_aux (fun x => x) fuel 1 1 (by norm_num) (by norm_num)

/-- C2: when every station lies within the region, each station is
assigned to exactly one quadrant — the first of SW, SE, NW, NE whose
edge-inclusive bounds contain it — and the four bucket sizes sum to the
original station count: nothing is dropped or duplicated. -/
theorem partition_conserves_stations (b : GeoBounds α)
    (stations : List (SeismicStation α)) (h : ∀ s ∈ stations, b.contains s) :
    ((bucketOf b stations 0).length + (bucketOf b stations 1).length +
      (bucketOf b stations 2).length + (bucketOf b stations 3).length =
      stations.length) ∧
    ∀ s ∈ stations, ∃! i, specFirstContaining (quadrantsOf b) s i := by
  refine ⟨bucket_lengths b stations h, fun s hs => ?_⟩
  obtain ⟨i, hlen, hfm⟩ := firstMatch_isSome _ _
    (exists_quadrant_of_contains b s (h s hs))
  have hi := (firstMatch_eq_iff _ _ _).mp hfm
  exact ⟨i, hi, fun j hj => specFirstContaining_unique _ _ _ _ hj hi⟩

/-- C2 witness: two in-region stations at `(0,0)` and `(2,2)` of the
region `[0,2]×[0,2]` conserve the count `2` across the four buckets. -/
theorem partition_conserves_stations_witness :
    ((bucketOf (⟨0, 2, 0, 2⟩ : GeoBounds ℚ)
        [⟨1, 0, 0, 0⟩, ⟨2, 2, 2, 0⟩] 0).length +
      (bucketOf (⟨0, 2, 0, 2⟩ : GeoBounds ℚ)
        [⟨1, 0, 0, 0⟩, ⟨2, 2, 2, 0⟩] 1).length +
      (bucketOf (⟨0, 2, 0, 2⟩ : GeoBounds ℚ)
        [⟨1, 0, 0, 0⟩, ⟨2, 2, 2, 0⟩] 2).length +
      (bucketOf (⟨0, 2, 0, 2⟩ : GeoBounds ℚ)
        [⟨1, 0, 0, 0⟩, ⟨2, 2, 2, 0⟩] 3).length = 2) ∧
    ∀ s ∈ ([⟨1, 0, 0, 0⟩, ⟨2, 2, 2, 0⟩] : List (SeismicStation ℚ)),
      ∃! i, specFirstContaining (quadrantsOf (⟨0, 2, 0, 2⟩ : GeoBounds ℚ)) s i :=
  partition_conserves_stations ⟨0, 2, 0, 2⟩
    [⟨1, 0, 0, 0⟩, ⟨2, 2, 2, 0⟩] (by decide)

/-- C5: on two or more estimates, the combiner returns the
confidence-weighted average location, the arithmetic-mean confidence and
the confidence-weighted average error; on a single estimate it is the
identity. -/
theorem weightedCombination_matches_spec (results : List (EpicenterResult α))
    (h : 2 ≤ results.length) :
    weightedCombination results = specCombine results ∧
    ∀ r : EpicenterResult α, weightedCombination [r] = r := by
  constructor
  · obtain _ | ⟨a, _ | ⟨b, rest⟩⟩ := results
    · simp at h
    · simp at h
    · exact weightedCombination_eq a b rest
  · intro r
    rfl

/-- C5 witness: a concrete two-estimate combination. -/
theorem weightedCombination_matches_spec_witness :
    weightedCombination [(⟨⟨0, 0⟩, 1, 0⟩ : EpicenterResult ℚ), ⟨⟨2, 2⟩, 1, 2⟩] =
      specCombine [(⟨⟨0, 0⟩, 1, 0⟩ : EpicenterResult ℚ), ⟨⟨2, 2⟩, 1, 2⟩] ∧
    ∀ r : EpicenterResult ℚ, weightedCombination [r] = r :=
  weightedCombination_matches_spec [⟨⟨0, 0⟩, 1, 0⟩, ⟨⟨2, 2⟩, 1, 2⟩] (by decide)

/-- C7: on exactly one station, `locateEpicenter` returns that station's
coordinates with confidence `1` and error `0`, at every fuel level. -/
theorem locate_single_station_exact (sq : α → α) (fuel : Nat)
    (s : SeismicStation α) (b : GeoBounds α) :
    locateEpicenter sq fuel [s] b = some ⟨⟨s.latitude, s.longitude⟩, 1, 0⟩ := by
  cases fuel <;> · rw [locateEpicenter, if_pos (by simp [BASE_CASE_SIZE])]; rfl

/-- C8: on the empty station list, `locateEpicenter` returns the
sentinel estimate: location `(0,0)`, confidence `0`, error `10⁹`. -/
theorem locate_empty_sentinel (sq : α → α) (fuel : Nat) (b : GeoBounds α) :
    locateEpicenter sq fuel ([] : List (SeismicStation α)) b =
      some ⟨⟨0, 0⟩, 0, 1000000000⟩ := by
  cases fuel <;> rfl

/-- C9: whenever the station count is at most the base-case threshold
`8`, `locateEpicenter` returns exactly the output of the base-case
estimator `simpleTriangulation` on the same list. -/
theorem locate_base_case_eq (sq : α → α) (fuel : Nat)
    (stations : List (SeismicStation α)) (b : GeoBounds α)
    (h : stations.length ≤ 8) :
    locateEpicenter sq fuel stations b = some (simpleTriangulation sq stations) := by
  cases fuel <;>
    rw [locateEpicenter, if_pos (show stations.length ≤ BASE_CASE_SIZE from h)]

/-- C9 witness: exactly eight stations route to the base-case estimator. -/
theorem locate_base_case_eq_witness :
    locateEpicenter (α := ℚ) (fun x => x) 3
      [⟨1, 0, 0, 0⟩, ⟨2, 1, 0, 0⟩, ⟨3, 0, 1, 0⟩, ⟨4, 1, 1, 0⟩,
       ⟨5, 2, 0, 0⟩, ⟨6, 0, 2, 0⟩, ⟨7, 2, 2, 0⟩, ⟨8, 1, 2, 0⟩] ⟨0, 2, 0, 2⟩ =
      some (simpleTriangulation (fun x => x)
        [⟨1, 0, 0, 0⟩, ⟨2, 1, 0, 0⟩, ⟨3, 0, 1, 0⟩, ⟨4, 1, 1, 0⟩,
         ⟨5, 2, 0, 0⟩, ⟨6, 0, 2, 0⟩, ⟨7, 2, 2, 0⟩, ⟨8, 1, 2, 0⟩]) :=
  locate_base_case_eq (fun x => x) 3 _ ⟨0, 2, 0, 2⟩ (by decide)

/-- C10: for a non-empty station list lying within the region, any
estimate the recursion returns has strictly positive confidence; and
the combiner, fed any non-empty list of positive-confidence estimates —
as every internal call is, by the first part — has strictly positive
total weight, so its divisions are well-defined. -/
theorem locate_confidence_positive :
    (∀ (sq : α → α) (fuel : Nat) (stations : List (SeismicStation α))
       (bounds : GeoBounds α) (r : EpicenterResult α),
       stations ≠ [] → (∀ s ∈ stations, bounds.contains s) →
       locateEpicenter sq fuel stations bounds = some r → 0 < r.confidence) ∧
    (∀ results : List (EpicenterResult α), results ≠ [] →
       (∀ x ∈ results, 0 < x.confidence) →
       0 < (results.map fun r => r.confidence).sum ∧
         0 < (weightedCombination results).confidence) :=
  ⟨fun sq fuel => locate_conf_pos_aux sq fuel,
   fun results => wc_conf_pos results⟩

/-- C10 witness: a concrete one-station in-region run yields confidence
`1 > 0`, and a concrete positive-confidence estimate list gives positive
total weight and combined confidence. -/
theorem locate_confidence_positive_witness :
    (0 : ℚ) < (⟨⟨0, 0⟩, 1, 0⟩ : EpicenterResult ℚ).confidence ∧
    (0 < (([(⟨⟨0, 0⟩, 1, 0⟩ : EpicenterResult ℚ)]).map fun r => r.confidence).sum ∧
      0 < (weightedCombination [(⟨⟨0, 0⟩, 1, 0⟩ : EpicenterResult ℚ)]).confidence) :=
  ⟨locate_confidence_positive.1 (fun x => x) 0 [⟨1, 0, 0, 0⟩] ⟨0, 1, 0, 1⟩
      ⟨⟨0, 0⟩, 1, 0⟩ (by decide) (by decide) (by decide),
   locate_confidence_positive.2 [⟨⟨0, 0⟩, 1, 0⟩] (by decide) (by decide)⟩

/-- C3: on two or more stations, the base-case estimator's location is
the weighted average of the station coordinates with weight
`1 / (1 + timeDiff²)` relative to the minimum detection time; in
particular two stations at `(0,0)` and `(0,10)` with identical detection
times yield the location `(0,5)`. -/
theorem simpleTriangulation_location_spec (sq : α → α)
    (stations : List (SeismicStation α)) (h : 2 ≤ stations.length) :
    (∃ m, specIsMinTime stations m ∧
      (simpleTriangulation sq stations).location = specLocation m stations) ∧
    ∀ (t : α) (i j : Int),
      (simpleTriangulation sq [⟨i, 0, 0, t⟩, ⟨j, 0, 10, t⟩]).location = ⟨0, 5⟩ := by
  constructor
  · obtain _ | ⟨a, _ | ⟨b, rest⟩⟩ := stations
    · simp at h
    · simp at h
    · refine ⟨(a :: b :: rest).foldl (fun m s => min m s.detection_time)
          a.detection_time, foldl_min_isMin a (b :: rest), ?_⟩
      rw [simpleTriangulation_eq]
  · intro t i j
    rw [simpleTriangulation_eq]
    show specLocation _ _ = _
    simp [specLocation, specWeight]
    norm_num

/-- C3 witness: the two-station scenario at concrete rational inputs. -/
theorem simpleTriangulation_location_spec_witness :
    (∃ m, specIsMinTime [(⟨1, 0, 0, 3⟩ : SeismicStation ℚ), ⟨2, 0, 10, 3⟩] m ∧
      (simpleTriangulation (fun x => x)
          [(⟨1, 0, 0, 3⟩ : SeismicStation ℚ), ⟨2, 0, 10, 3⟩]).location =
        specLocation m [(⟨1, 0, 0, 3⟩ : SeismicStation ℚ), ⟨2, 0, 10, 3⟩]) ∧
    ∀ (t : ℚ) (i j : Int),
      (simpleTriangulation (fun x => x) [⟨i, 0, 0, t⟩, ⟨j, 0, 10, t⟩]).location =
        ⟨0, 5⟩ :=
  simpleTriangulation_location_spec (fun x => x)
    [⟨1, 0, 0, 3⟩, ⟨2, 0, 10, 3⟩] (by decide)

/-- C4: on two or more stations, the base-case estimator's error is the
summed squared residual between theoretical travel time
`distance(estimate, station) / 6` and the actual time difference, its
confidence is `1 / (1 + error / stationCount)`, which lies in `(0,1]`
and strictly decreases in the normalized error. -/
theorem simpleTriangulation_error_confidence_spec (sq : α → α)
    (stations : List (SeismicStation α)) (h : 2 ≤ stations.length) :
    (∃ m, specIsMinTime stations m ∧
      (simpleTriangulation sq stations).error =
        specError sq (simpleTriangulation sq stations).location m stations) ∧
    (simpleTriangulation sq stations).confidence =
      1 / (1 + (simpleTriangulation sq stations).error / (stations.length : α)) ∧
    0 < (simpleTriangulation sq stations).confidence ∧
    (simpleTriangulation sq stations).confidence ≤ 1 ∧
    ∀ e1 e2 : α, 0 ≤ e1 → e1 < e2 →
      1 / (1 + e2 / (stations.length : α)) <
        1 / (1 + e1 / (stations.length : α)) := by
  obtain _ | ⟨a, _ | ⟨b, rest⟩⟩ := stations
  · simp at h
  · simp at h
  · have hn : (0 : α) < ((a :: b :: rest).length : α) := by
      exact_mod_cast Nat.succ_pos _
    refine ⟨⟨(a :: b :: rest).foldl (fun m s => min m s.detection_time)
        a.detection_time, foldl_min_isMin a (b :: rest), ?_⟩, ?_, ?_, ?_, ?_⟩
    · rw [simpleTriangulation_eq]
    · rw [simpleTriangulation_eq]
    · exact simpleTriangulation_conf_pos sq _ (by simp)
    · rw [simpleTriangulation_eq]
      exact conf_formula_le_one _ _ (specError_nonneg sq _ _ _) hn
    · intro e1 e2 he1 hlt
      exact conf_formula_antitone e1 e2 _ he1 hlt hn

/-- C4 witness: error/confidence formulas at a concrete two-station
input. -/
theorem simpleTriangulation_error_confidence_spec_witness :
    (∃ m, specIsMinTime [(⟨1, 0, 0, 0⟩ : SeismicStation ℚ), ⟨2, 0, 10, 0⟩] m ∧
      (simpleTriangulation (fun x => x)
          [(⟨1, 0, 0, 0⟩ : SeismicStation ℚ), ⟨2, 0, 10, 0⟩]).error =
        specError (fun x => x)
          (simpleTriangulation (fun x => x)
            [(⟨1, 0, 0, 0⟩ : SeismicStation ℚ), ⟨2, 0, 10, 0⟩]).location m
          [(⟨1, 0, 0, 0⟩ : SeismicStation ℚ), ⟨2, 0, 10, 0⟩]) ∧
    (simpleTriangulation (fun x => x)
        [(⟨1, 0, 0, 0⟩ : SeismicStation ℚ), ⟨2, 0, 10, 0⟩]).confidence =
      1 / (1 + (simpleTriangulation (fun x => x)
          [(⟨1, 0, 0, 0⟩ : SeismicStation ℚ), ⟨2, 0, 10, 0⟩]).error /
        (([(⟨1, 0, 0, 0⟩ : SeismicStation ℚ), ⟨2, 0, 10, 0⟩].length : Nat) : ℚ)) ∧
    0 < (simpleTriangulation (fun x => x)
        [(⟨1, 0, 0, 0⟩ : SeismicStation ℚ), ⟨2, 0, 10, 0⟩]).confidence ∧
    (simpleTriangulation (fun x => x)
        [(⟨1, 0, 0, 0⟩ : SeismicStation ℚ), ⟨2, 0, 10, 0⟩]).confidence ≤ 1 ∧
    ∀ e1 e2 : ℚ, 0 ≤ e1 → e1 < e2 →
      1 / (1 + e2 / (([(⟨1, 0, 0, 0⟩ : SeismicStation ℚ),
          ⟨2, 0, 10, 0⟩].length : Nat) : ℚ)) <
        1 / (1 + e1 / (([(⟨1, 0, 0, 0⟩ : SeismicStation ℚ),
          ⟨2, 0, 10, 0⟩].length : Nat) : ℚ)) :=
  simpleTriangulation_error_confidence_spec (fun x => x)
    [⟨1, 0, 0, 0⟩, ⟨2, 0, 10, 0⟩] (by decide)

/-- C6: splitting a well-formed region at its midpoint produces four
quadrants whose union is exactly the parent region, and two distinct
quadrants share only points on the midpoint latitude or longitude
lines. -/
theorem quadrants_cover_parent (b : GeoBounds α)
    (h1 : b.min_lat ≤ b.max_lat) (h2 : b.min_lon ≤ b.max_lon) :
    (∀ s : SeismicStation α,
      b.contains s ↔ ∃ q ∈ quadrantsOf b, q.contains s) ∧
    (∀ s : SeismicStation α, ∀ q ∈ quadrantsOf b, ∀ q' ∈ quadrantsOf b,
      q ≠ q' → q.contains s → q'.contains s →
      s.latitude = (b.min_lat + b.max_lat) / 2 ∨
        s.longitude = (b.min_lon + b.max_lon) / 2) := by
  constructor
  · intro s
    constructor
    · exact exists_quadrant_of_contains b s
    · rintro ⟨q, hq, hc⟩
      exact quadrant_contains b s h1 h2 q hq hc
  · intro s q hq q' hq' hne hc hc'
    simp only [quadrantsOf, List.mem_cons, List.not_mem_nil, or_false] at hq hq'
    rcases hq with rfl | rfl | rfl | rfl <;> rcases hq' with rfl | rfl | rfl | rfl <;>
      simp only [GeoBounds.contains, swOf, seOf, nwOf, neOf] at hc hc' <;>
      first
        | exact absurd rfl hne
        | (obtain ⟨p1, p2, p3, p4⟩ := hc
           obtain ⟨r1, r2, r3, r4⟩ := hc'
           first
             | exact Or.inl (by linarith)
             | exact Or.inr (by linarith))

/-- C6 witness: the unit region split at `(1/2, 1/2)`. -/
theorem quadrants_cover_parent_witness :
    (∀ s : SeismicStation ℚ,
      (⟨0, 1, 0, 1⟩ : GeoBounds ℚ).contains s ↔
        ∃ q ∈ quadrantsOf (⟨0, 1, 0, 1⟩ : GeoBounds ℚ), q.contains s) ∧
    (∀ s : SeismicStation ℚ, ∀ q ∈ quadrantsOf (⟨0, 1, 0, 1⟩ : GeoBounds ℚ),
      ∀ q' ∈ quadrantsOf (⟨0, 1, 0, 1⟩ : GeoBounds ℚ),
      q ≠ q' → q.contains s → q'.contains s →
      s.latitude = ((0 : ℚ) + 1) / 2 ∨ s.longitude = ((0 : ℚ) + 1) / 2) :=
  quadrants_cover_parent ⟨0, 1, 0, 1⟩ (by norm_num) (by norm_num)

end EpicenterLocator
